import Mathlib

/-!
Shallow embedding of the call-tree graph engine in `thicket_new/graph.py` and
`thicket_new/node.py`.

The Python code stores the DAG in a `rustworkx.PyDiGraph(check_cycle=True,
multigraph=False)`.  The rustworkx container is modelled by `RXDiGraph` below,
following rustworkx's documented behaviour: node indices are assigned
monotonically, `add_parent child` allocates a fresh index and inserts the edge
`new -> child`, `add_edge` refuses an edge that would close a cycle (raising
`DAGWouldCycle` before any mutation), and with `multigraph := false` re-adding
an existing ordered pair only updates the edge payload.  Edge payloads are
never observed by the Python code and are omitted.

Modelling conventions:
* Python exceptions are modelled by `Except PyErr`; an `Except.error` result
  carries no graph, matching the fact that the modelled raise points occur
  before any mutation of the receiver.
* The source frequently calls rustworkx entry points with the payload
  arguments missing (`dag.add_node()`, `dag.add_parent(child_id)`,
  `dag.add_edge(p, c)`) and immediately stores the payload afterwards through
  `dag[idx] = node`; the embedding performs the allocation and the payload
  store in one step, since no intermediate state is observable.  Likewise the
  call `GraphDFSVistor(order, attrs)` and the keyword `frame_obj` in
  `Node.copy` are modelled as binding the evidently intended parameters.
* Data-level semantics are modelled faithfully: attribute access on a value of
  the wrong type (`getattr(int, "frame")` in `find_merges`, the missing method
  `enumerate_traverse` in `copy`, `Node.__eq__` reading `_hatchet_nid` off an
  `int` during the dictionary lookup in `copy`) raise `AttributeError`.
-/

/-- Decidable equality of `Except` values, used to evaluate the embedded
operations on concrete inputs. -/
instance {ε α : Type} [DecidableEq ε] [DecidableEq α] : DecidableEq (Except ε α) :=
  fun x y =>
    match x, y with
    | .error e, .error f =>
      if h : e = f then isTrue (h ▸ rfl)
      else isFalse (fun hh => h (Except.error.inj hh))
    | .ok a, .ok b =>
      if h : a = b then isTrue (h ▸ rfl)
      else isFalse (fun hh => h (Except.ok.inj hh))
    | .error _, .ok _ => isFalse (fun hh => Except.noConfusion hh)
    | .ok _, .error _ => isFalse (fun hh => Except.noConfusion hh)

namespace Thicket

/-- Python exception kinds raised by the modelled code paths. -/
inductive PyErr where
  /-- `TypeError` — an argument of an unsupported kind. -/
  | typeMismatch (msg : String)
  /-- `ValueError` — e.g. an unknown traversal order (graph.py:27). -/
  | valueError (msg : String)
  /-- `AttributeError` — attribute access on a value that lacks it. -/
  | attributeError (msg : String)
  /-- rustworkx `DAGWouldCycle` — the edge would close a cycle. -/
  | dagWouldCycle
  /-- rustworkx index error — a node index absent from the graph. -/
  | noIndex
deriving DecidableEq, Repr

/-- External collaborator (`thicket_new/frame.py`, out of the spec's scope):
an immutable, hashable, equality-comparable bundle of attributes.  Modelled as
an association list of attribute names to values; only value equality is used
by the embedded code. -/
structure Frame where
  attrs : List (String × String)
deriving DecidableEq, Repr

/-- `Frame.copy` — a deep copy of an immutable value is the same value. -/
def Frame.copy (f : Frame) : Frame := f

/-- `thicket_new/node.py`: a vertex handle, a Frame plus the graph-assigned
integer identity `_hatchet_nid` (default `-1`) and an optional depth. -/
structure Node where
  frame : Frame
  _hatchet_nid : Int := -1
  _depth : Int := -1
deriving DecidableEq, Repr

/-- `Node.__eq__` (node.py:13-14): equality compares only `_hatchet_nid`;
the frames are ignored. -/
def Node.eqOp (a b : Node) : Bool := a._hatchet_nid == b._hatchet_nid

/-- `Node.__hash__` (node.py:10-11): the hash is `_hatchet_nid` itself. -/
def Node.hashOp (a : Node) : Int := a._hatchet_nid

/-- `Node.__lt__` (node.py:16-17): ordering compares only `_hatchet_nid`. -/
def Node.ltOp (a b : Node) : Bool := decide (a._hatchet_nid < b._hatchet_nid)

/-- `Node.__gt__` (node.py:19-20). -/
def Node.gtOp (a b : Node) : Bool := decide (b._hatchet_nid < a._hatchet_nid)

/-- `Node.copy` (node.py:26-28): `Node(frame_obj=self.frame.copy())`.  The
keyword `frame_obj` is modelled as the parameter `frame` (see the header);
`hnid` and `depth` take their defaults, so every copy carries id `-1`. -/
def Node.copy (n : Node) : Node :=
  { frame := n.frame.copy, _hatchet_nid := -1, _depth := -1 }

/-- A `Union[int, Node]` vertex reference, as accepted by the mutation
primitives (graph.py resolves either to an integer id; the `TypeError` branch
for any other kind of value has no inhabitant in this embedding). -/
inductive NodeRef where
  | ofId (i : Int)
  | ofNode (n : Node)
deriving DecidableEq, Repr

/-- Resolve a reference to its integer id (graph.py:57-60 and analogues). -/
def NodeRef.resolve : NodeRef → Int
  | .ofId i => i
  | .ofNode n => n._hatchet_nid

/-- The rustworkx `PyDiGraph` state: a monotone index supply, the payload
table in insertion order, and the directed edge list in insertion order. -/
structure RXDiGraph where
  nextId : Int := 0
  nodes : List (Int × Node) := []
  edges : List (Int × Int) := []
deriving DecidableEq, Repr

/-- Whether a node index is present in the graph. -/
def RXDiGraph.hasNode (d : RXDiGraph) (i : Int) : Bool :=
  d.nodes.any (fun p => p.1 == i)

/-- Out-neighbour ids of `p`, in edge-insertion order. -/
def childrenIds (edges : List (Int × Int)) (p : Int) : List Int :=
  (edges.filter (fun e => e.1 == p)).map (fun e => e.2)

/-- In-neighbour ids of `c`, in edge-insertion order. -/
def parentIds (edges : List (Int × Int)) (c : Int) : List Int :=
  (edges.filter (fun e => e.2 == c)).map (fun e => e.1)

/-- In-degree of `v` in an edge list. -/
def inDegree (edges : List (Int × Int)) (v : Int) : Nat :=
  (edges.filter (fun e => e.2 == v)).length

/-- Python `set.add`: a set of ids, modelled as a duplicate-free list. -/
def pySetInsert (s : List Int) (x : Int) : List Int :=
  if x ∈ s then s else s ++ [x]

/-- Python `set.remove`. -/
def pySetErase (s : List Int) (x : Int) : List Int :=
  s.filter (fun y => y != x)

/-- Insert into an ascending list (used to model `list.sort()`). -/
def insortAsc (x : Int) : List Int → List Int
  | [] => [x]
  | y :: ys => if x ≤ y then x :: y :: ys else y :: insortAsc x ys

/-- Ascending insertion sort over ids. -/
def sortAsc (l : List Int) : List Int := l.foldr insortAsc []

/-- `thicket_new/graph.py`: the graph object — the rustworkx DAG plus the
`roots` set of integer ids (graph.py:44-47).  The Python `set` is modelled as
a duplicate-free list; every observation the code makes of it (membership,
size, emptiness, the sorted id list) is order-independent. -/
structure Graph where
  dag : RXDiGraph := {}
  roots : List Int := []
deriving DecidableEq, Repr

/-- The graph produced by `Graph.__init__`. -/
def emptyGraph : Graph := { dag := {}, roots := [] }

/-- `Graph.add_node` (graph.py:49-54): allocate a fresh index, store
`Node(frame, node_id)` as its payload, add the id to `roots`, return the
node. -/
def Graph.add_node (g : Graph) (frame : Frame) : Graph × Node :=
  let nid := g.dag.nextId
  let nodeObj : Node := { frame := frame, _hatchet_nid := nid }
  ({ dag := { nextId := nid + 1, nodes := g.dag.nodes ++ [(nid, nodeObj)],
              edges := g.dag.edges },
     roots := pySetInsert g.roots nid },
   nodeObj)

/-- `Graph.add_parent` (graph.py:56-71): resolve `child`, call
`dag.add_parent(child_id)` — a fresh index with an edge `new -> child` —
store the payload, add the new id to `roots`, and remove `child_id` from
`roots` if it was there.  rustworkx raises if `child_id` is absent. -/
def Graph.add_parent (g : Graph) (child : NodeRef) (parent_frame : Frame) :
    Except PyErr (Graph × Node) :=
  let child_id := child.resolve
  if g.dag.hasNode child_id then
    let parent_id := g.dag.nextId
    let parent_node : Node := { frame := parent_frame, _hatchet_nid := parent_id }
    let roots := pySetInsert g.roots parent_id
    let roots := if child_id ∈ roots then pySetErase roots child_id else roots
    .ok ({ dag := { nextId := parent_id + 1,
                    nodes := g.dag.nodes ++ [(parent_id, parent_node)],
                    edges := g.dag.edges ++ [(parent_id, child_id)] },
           roots := roots },
         parent_node)
  else .error .noIndex

/-- `Graph.add_child` (graph.py:73-85): resolve `parent`, then the source
calls `dag.add_parent(parent_id)` (graph.py:82): the fresh vertex is created
as a PARENT of `parent_id`, i.e. the inserted edge runs `child_id ->
parent_id`, and `roots` is not touched at all. -/
def Graph.add_child (g : Graph) (parent : NodeRef) (child_frame : Frame) :
    Except PyErr (Graph × Node) :=
  let parent_id := parent.resolve
  if g.dag.hasNode parent_id then
    let child_id := g.dag.nextId
    let child_node : Node := { frame := child_frame, _hatchet_nid := child_id }
    .ok ({ dag := { nextId := child_id + 1,
                    nodes := g.dag.nodes ++ [(child_id, child_node)],
                    edges := g.dag.edges ++ [(child_id, parent_id)] },
           roots := g.roots },
         child_node)
  else .error .noIndex

/-! ### Reachability

rustworkx's `check_cycle=True` flag makes `add_edge(p, c)` raise
`DAGWouldCycle`, before inserting anything, exactly when `p` is already
reachable from `c` along the existing edges (including `p = c`).  The check is
embedded as a finite saturation `iterSet` of the successor relation, together
with the inductive path predicate `ReachN` it is proved to contain. -/

/-- Target ids of all edges whose source lies in `S`. -/
def edgeTargetsFrom (edges : List (Int × Int)) (S : Finset Int) : Finset Int :=
  ((edges.filter (fun e => decide (e.1 ∈ S))).map (fun e => e.2)).toFinset

/-- One saturation step: add every successor of the current set. -/
def stepSet (edges : List (Int × Int)) (S : Finset Int) : Finset Int :=
  S ∪ edgeTargetsFrom edges S

/-- Iterated saturation. -/
def iterSet (edges : List (Int × Int)) : Nat → Finset Int → Finset Int
  | 0, S => S
  | n + 1, S => iterSet edges n (stepSet edges S)

/-- Every id mentioned by some edge. -/
def vertsOf (edges : List (Int × Int)) : Finset Int :=
  edges.foldr (fun e acc => insert e.1 (insert e.2 acc)) ∅

/-- The executable reachability test used by the cycle check: saturate the
successor relation starting from `{s}` for as many rounds as there are
candidate vertices. -/
def reachB (edges : List (Int × Int)) (s t : Int) : Bool :=
  decide (t ∈ iterSet edges (insert s (vertsOf edges)).card {s})

/-- Paths along the directed edge list (reflexive-transitive closure). -/
inductive ReachN (edges : List (Int × Int)) : Int → Int → Prop
  | refl (a : Int) : ReachN edges a a
  | step {a b c : Int} : (a, b) ∈ edges → ReachN edges b c → ReachN edges a c

/-- `Graph.add_edge` (graph.py:87-106): resolve both references, insert the
edge through rustworkx — which refuses an edge closing a cycle and, with
`multigraph=False`, treats a duplicate ordered pair as a payload update — and
finally drop `child_id` from `roots` if it was there. -/
def Graph.add_edge (g : Graph) (parent child : NodeRef) : Except PyErr Graph :=
  let parent_id := parent.resolve
  let child_id := child.resolve
  if g.dag.hasNode parent_id then
    if g.dag.hasNode child_id then
      if reachB g.dag.edges child_id parent_id then .error .dagWouldCycle
      else
        let edges :=
          if (parent_id, child_id) ∈ g.dag.edges then g.dag.edges
          else g.dag.edges ++ [(parent_id, child_id)]
        let roots :=
          if child_id ∈ g.roots then pySetErase g.roots child_id else g.roots
        .ok { dag := { g.dag with edges := edges }, roots := roots }
    else .error .noIndex
  else .error .noIndex

/-- `Graph.get_parents` (graph.py:108-121): payloads at the sources of all
in-edges of `child`, in edge order. -/
def Graph.get_parents (g : Graph) (child : NodeRef) : List Node :=
  (parentIds g.dag.edges child.resolve).filterMap (fun i => g.dag.nodes.lookup i)

/-- `Graph.get_children` (graph.py:123-136): payloads at the targets of all
out-edges of `parent`, in edge order. -/
def Graph.get_children (g : Graph) (parent : NodeRef) : List Node :=
  (childrenIds g.dag.edges parent.resolve).filterMap (fun i => g.dag.nodes.lookup i)

/-! ### Traversal

`Graph.traverse` (graph.py:138-149) builds a `GraphDFSVistor(order)` — whose
constructor raises `ValueError` for an order other than `"pre"`/`"post"`
before anything is yielded (graph.py:26-27) — sorts the roots ascending and
runs `rx.digraph_dfs_search` from them.  Following petgraph's depth-first
search, a vertex already discovered fires no further `discover_vertex` event,
so each reachable vertex is discovered exactly once per full search; the
visitor appends to `node_ids` on discovery (`"pre"`) or on finish (`"post"`)
and counts discoveries in its own `visited` dictionary (graph.py:30-41; its
keys `id(vertex)` are modelled by the integer indices themselves).

Line graph.py:147, `visited = dfs_visitor.visited`, rebinds the *local* name:
the mapping a caller supplied through the `visited` parameter is never
mutated, so `traverse` hands it back exactly as it came in. -/

/-- State of the depth-first search visitor. -/
structure DFSState where
  discovered : List Int := []
  preList : List Int := []
  postList : List Int := []
  counts : List (Int × Nat) := []
deriving DecidableEq

/-- Increment (or create) the discovery count of `v`
(graph.py:33-37). -/
def bump (counts : List (Int × Nat)) (v : Int) : List (Int × Nat) :=
  if counts.any (fun p => p.1 == v) then
    counts.map (fun p => if p.1 == v then (p.1, p.2 + 1) else p)
  else counts ++ [(v, 1)]

/-- Depth-first visit of a single vertex with shared colouring, fuelled by
the recursion depth; the callers supply fuel exceeding the vertex count.  A
vertex already discovered fires no event (petgraph semantics). -/
def dfsVisit (edges : List (Int × Int)) : Nat → Int → DFSState → DFSState
  | 0, _, st => st
  | fuel + 1, v, st =>
    if v ∈ st.discovered then st
    else
      let st1 : DFSState :=
        { discovered := st.discovered ++ [v],
          preList := st.preList ++ [v],
          postList := st.postList,
          counts := bump st.counts v }
      let st2 := (childrenIds edges v).foldl
        (fun s c => dfsVisit edges fuel c s) st1
      { st2 with postList := st2.postList ++ [v] }

/-- The roots in ascending id order (graph.py:143-144). -/
def Graph.sortedRoots (g : Graph) : List Int := sortAsc g.roots

/-- The final visitor state of a full search from the sorted roots. -/
def Graph.dfsState (g : Graph) : DFSState :=
  g.sortedRoots.foldl
    (fun st r => dfsVisit g.dag.edges (g.dag.nodes.length + 1) r st) {}

/-- `Graph.traverse` (graph.py:138-149), with `attrs = None` (the only form
the embedded callers use): the produced vertices and the caller-visible
`visited` argument, which comes back unchanged (see above). -/
def Graph.traverse (g : Graph) (order : String)
    (visited : Option (List (Int × Nat))) :
    Except PyErr (List Node × Option (List (Int × Nat))) :=
  if order = "pre" ∨ order = "post" then
    let st := g.dfsState
    let ids := if order = "pre" then st.preList else st.postList
    .ok (ids.filterMap (fun i => g.dag.nodes.lookup i), visited)
  else .error (.valueError "Unknown traversal order")

/-- The discovery-count table the visitor builds internally (graph.py:33-37);
after graph.py:147 it is dropped and never reaches the caller. -/
def Graph.visitorCounts (g : Graph) : List (Int × Nat) := g.dfsState.counts

/-- `Graph.is_tree` (graph.py:151-156): more than one root is immediately
`False`; otherwise the traversal is drained with a fresh local dictionary
`visited = {}` — which stays empty, since graph.py:147 never mutates it — and
`all(v == 1 for v in visited.values())` runs over that empty dictionary. -/
def Graph.is_tree (g : Graph) : Except PyErr Bool :=
  if 1 < g.roots.length then .ok false
  else
    match g.traverse "pre" (some []) with
    | .error e => .error e
    | .ok _ => .ok (([] : List (Int × Nat)).all (fun p => p.2 == 1))

/-! ### Merge detection and application -/

/-- `Graph.find_merges` (graph.py:158-213).  Its first act (graph.py:191) is
`_find_child_merges(self.roots)`: `self.roots` is a set of *integer* ids (see
`add_node`/`update_roots`), and `index_by("frame", node_list)`
(graph.py:10-19) executes `getattr(obj, "frame")` on each element — an `int`
has no attribute `frame`, so for every non-empty root set the call raises
`AttributeError` before any grouping, representative choice or traversal
happens.  With an empty root set no `getattr` runs, the traversal from no
roots yields nothing, and the empty mapping is returned.  The mapping is
modelled as an association list of ids (the Python dictionary keys and values
are `Node`s, whose equality and hash are their ids, node.py:10-14). -/
def Graph.find_merges (g : Graph) : Except PyErr (List (Int × Int)) :=
  if g.roots = [] then .ok []
  else .error (.attributeError "int object has no attribute frame")

/-- `Graph.update_roots` (graph.py:215-218): recompute `roots` as the ids of
zero-in-degree vertices. -/
def Graph.update_roots (g : Graph) : Graph :=
  { g with
    roots := (g.dag.nodes.map (fun p => p.1)).filter
      (fun n => inDegree g.dag.edges n == 0) }

/-- rustworkx `PyDiGraph.merge_nodes(u, v)`: the merge happens only when the
two payloads compare equal — here via `Node.__eq__`, i.e. equal
`_hatchet_nid` — in which case `u`'s edges are redirected to `v` (duplicates
collapsed, as `multigraph=False`) and `u` is removed; otherwise it is a
no-op.  Payloads of distinct indices carry distinct ids, so the calls issued
by `Graph.merge_nodes` never merge anything. -/
def RXDiGraph.mergeNodesOp (d : RXDiGraph) (u v : Int) : RXDiGraph :=
  match d.nodes.lookup u, d.nodes.lookup v with
  | some nu, some nv =>
    if nu._hatchet_nid == nv._hatchet_nid then
      let redirected := d.edges.map
        (fun e => (if e.1 == u then v else e.1, if e.2 == u then v else e.2))
      let dedup := redirected.foldl
        (fun acc e => if e ∈ acc then acc else acc ++ [e]) []
      { d with nodes := d.nodes.filter (fun p => p.1 != u), edges := dedup }
    else d
  | _, _ => d

/-- `Graph.merge_nodes` (graph.py:220-233): issue one rustworkx
`merge_nodes` per mapping entry, then recompute `roots` from scratch. -/
def Graph.merge_nodes (g : Graph) (merges : List (Int × Int)) : Graph :=
  let d := merges.foldl (fun acc p => acc.mergeNodesOp p.1 p.2) g.dag
  Graph.update_roots { g with dag := d }

/-- `Graph.normalize` (graph.py:235-238): `find_merges` then `merge_nodes`;
returns the mutated graph together with the mapping handed back to the
caller. -/
def Graph.normalize (g : Graph) : Except PyErr (Graph × List (Int × Int)) :=
  match g.find_merges with
  | .error e => .error e
  | .ok m => .ok (g.merge_nodes m, m)

/-- `Graph.copy` (graph.py:240-253).  The per-node loop succeeds (each
`Node.copy` yields a fresh node with id `-1`), but then:
* with a non-empty root set, graph.py:251 evaluates `old_to_new[r]` for an
  integer `r` on a dictionary keyed by `Node`s; the probe finds the old node
  hashing to `r` and tests it for equality, and `Node.__eq__` (node.py:14)
  reads `other._hatchet_nid` off the `int` — `AttributeError`;
* with an empty root set, graph.py:252 calls `graph.enumerate_traverse()`, a
  method `Graph` does not define — `AttributeError`.
Either way `copy` raises and never returns a graph or a mapping. -/
def Graph.copy (g : Graph) : Except PyErr (Graph × List (Node × Node)) :=
  if g.roots = [] then
    .error (.attributeError "Graph object has no attribute enumerate_traverse")
  else
    .error (.attributeError "int object has no attribute _hatchet_nid")

/-! ### Concrete graphs used by the claim theorems -/

/-- A frame, `Frame({"name": "main"})`. -/
def frameMain : Frame := ⟨[("name", "main")]⟩

/-- A frame, `Frame({"name": "foo"})`. -/
def frameFoo : Frame := ⟨[("name", "foo")]⟩

/-- One `add_node(frameMain)` on a fresh graph: vertex `0`, `roots = {0}`. -/
def g1 : Graph := (emptyGraph.add_node frameMain).1

/-- The graph produced by `add_node(frameMain); add_child(0, frameFoo)`:
vertices `0` and `1`, a single edge `1 -> 0`, `roots = {0}`. -/
def g2 : Graph :=
  { dag := { nextId := 2,
             nodes := [(0, { frame := frameMain, _hatchet_nid := 0 }),
                       (1, { frame := frameFoo, _hatchet_nid := 1 })],
             edges := [(1, 0)] },
    roots := [0] }

/-- Two vertices `0 -> 1`: the witness graph for the cycle-rejection
theorem. -/
def gW : Graph :=
  { dag := { nextId := 2,
             nodes := [(0, { frame := frameMain, _hatchet_nid := 0 }),
                       (1, { frame := frameFoo, _hatchet_nid := 1 })],
             edges := [(0, 1)] },
    roots := [0] }

/-! ### Properties of the saturation-based reachability check -/

theorem mem_edgeTargetsFrom {edges : List (Int × Int)} {S : Finset Int}
    {b : Int} :
    b ∈ edgeTargetsFrom edges S ↔ ∃ a, (a, b) ∈ edges ∧ a ∈ S := by
  simp only [edgeTargetsFrom, List.mem_toFinset, List.mem_map, List.mem_filter,
    decide_eq_true_eq]
  constructor
  · rintro ⟨x, ⟨hmem, hS⟩, hx2⟩
    refine ⟨x.1, ?_, hS⟩
    rwa [show (x.1, b) = x from by rw [← hx2]]
  · rintro ⟨a, ha, haS⟩
    exact ⟨(a, b), ⟨ha, haS⟩, rfl⟩

theorem subset_stepSet {edges : List (Int × Int)} {S : Finset Int} :
    S ⊆ stepSet edges S :=
  Finset.subset_union_left

theorem iterSet_superset {edges : List (Int × Int)} :
    ∀ (n : Nat) (S : Finset Int), S ⊆ iterSet edges n S := by
  intro n
  induction n with
  | zero => intro S; exact Finset.Subset.refl S
  | succ n ih =>
    intro S
    exact Finset.Subset.trans subset_stepSet (ih (stepSet edges S))

theorem iterSet_of_fixed {edges : List (Int × Int)} {S : Finset Int}
    (h : stepSet edges S = S) : ∀ n, iterSet edges n S = S := by
  intro n
  induction n with
  | zero => rfl
  | succ n ih => simpa [iterSet, h] using ih

theorem mem_vertsOf_of_mem {edges : List (Int × Int)} {a b : Int}
    (h : (a, b) ∈ edges) : a ∈ vertsOf edges ∧ b ∈ vertsOf edges := by
  induction edges with
  | nil => cases h
  | cons e es ih =>
    rcases List.mem_cons.1 h with h1 | h2
    · subst h1
      constructor
      · exact Finset.mem_insert_self a _
      · exact Finset.mem_insert_of_mem (Finset.mem_insert_self b _)
    · obtain ⟨ha, hb⟩ := ih h2
      exact ⟨Finset.mem_insert_of_mem (Finset.mem_insert_of_mem ha),
        Finset.mem_insert_of_mem (Finset.mem_insert_of_mem hb)⟩

theorem edgeTargetsFrom_subset_verts {edges : List (Int × Int)}
    {S : Finset Int} : edgeTargetsFrom edges S ⊆ vertsOf edges := by
  intro b hb
  obtain ⟨a, ha, _⟩ := mem_edgeTargetsFrom.1 hb
  exact (mem_vertsOf_of_mem ha).2

theorem stepSet_subset {edges : List (Int × Int)} {S U : Finset Int}
    (hverts : vertsOf edges ⊆ U) (hS : S ⊆ U) : stepSet edges S ⊆ U :=
  Finset.union_subset hS (Finset.Subset.trans edgeTargetsFrom_subset_verts hverts)

theorem stepSet_eq_of_verts_subset {edges : List (Int × Int)} {S : Finset Int}
    (h : vertsOf edges ⊆ S) : stepSet edges S = S :=
  Finset.union_eq_left.mpr
    (Finset.Subset.trans edgeTargetsFrom_subset_verts h)

/-- Saturation reaches a fixed point once the fuel covers the number of
vertices the current set can still absorb. -/
theorem stepSet_iterSet_eq {edges : List (Int × Int)} {U : Finset Int}
    (hverts : vertsOf edges ⊆ U) :
    ∀ (n : Nat) (S : Finset Int), S ⊆ U → U.card ≤ S.card + n →
      stepSet edges (iterSet edges n S) = iterSet edges n S := by
  intro n
  induction n with
  | zero =>
    intro S hSU hcard
    have hUS : S = U := Finset.eq_of_subset_of_card_le hSU (by omega)
    subst hUS
    exact stepSet_eq_of_verts_subset hverts
  | succ n ih =>
    intro S hSU hcard
    show stepSet edges (iterSet edges n (stepSet edges S)) =
      iterSet edges n (stepSet edges S)
    by_cases hfix : stepSet edges S = S
    · rw [hfix, iterSet_of_fixed hfix n, hfix]
    · have hss : S ⊂ stepSet edges S :=
        Finset.ssubset_iff_subset_ne.mpr ⟨subset_stepSet, fun h => hfix h.symm⟩
      have hlt : S.card < (stepSet edges S).card := Finset.card_lt_card hss
      exact ih (stepSet edges S) (stepSet_subset hverts hSU) (by omega)

theorem closed_of_stepFixed {edges : List (Int × Int)} {S : Finset Int}
    (h : stepSet edges S = S) :
    ∀ a b, a ∈ S → (a, b) ∈ edges → b ∈ S := by
  intro a b haS hab
  have hb : b ∈ edgeTargetsFrom edges S := mem_edgeTargetsFrom.2 ⟨a, hab, haS⟩
  have : b ∈ stepSet edges S := Finset.mem_union_right _ hb
  rwa [h] at this

theorem reach_mem_of_closed {edges : List (Int × Int)} {S : Finset Int}
    (hclosed : ∀ a b, a ∈ S → (a, b) ∈ edges → b ∈ S) :
    ∀ {s t : Int}, ReachN edges s t → s ∈ S → t ∈ S := by
  intro s t h
  induction h with
  | refl a => exact id
  | step hab _ ih => exact fun hs => ih (hclosed _ _ hs hab)

/-- Completeness of the executable check: every path is found by the
saturation with vertex-count fuel. -/
theorem reachB_complete {edges : List (Int × Int)} {s t : Int}
    (h : ReachN edges s t) : reachB edges s t = true := by
  unfold reachB
  rw [decide_eq_true_iff]
  have hverts : vertsOf edges ⊆ insert s (vertsOf edges) :=
    Finset.subset_insert s (vertsOf edges)
  have hS : ({s} : Finset Int) ⊆ insert s (vertsOf edges) := by
    intro x hx
    rw [Finset.mem_singleton] at hx
    subst hx
    exact Finset.mem_insert_self x _
  have hcard : (insert s (vertsOf edges)).card ≤
      ({s} : Finset Int).card + (insert s (vertsOf edges)).card := by omega
  have hfix := stepSet_iterSet_eq hverts (insert s (vertsOf edges)).card
    {s} hS hcard
  have hclosed := closed_of_stepFixed hfix
  have hs : s ∈ iterSet edges (insert s (vertsOf edges)).card {s} :=
    iterSet_superset _ _ (Finset.mem_singleton_self s)
  exact reach_mem_of_closed hclosed h hs

/-! ### Claim theorems -/

/-- C1: counterexample to "a vertex id is in `roots` iff its in-degree is 0
after every mutation sequence".  After the sequence `add_node(frameMain);
add_child(0, frameFoo)` the graph is `g2`: its roots set is still `{0}`,
although vertex `0` now has in-degree 1 and the new vertex `1` has in-degree
0 and is missing from `roots` — `add_child` created the edge `1 -> 0` via
`dag.add_parent` and never touched `roots`. -/
theorem add_child_breaks_roots_invariant :
    (g1.add_child (.ofId 0) frameFoo).map Prod.fst = .ok g2 ∧
    g2.roots = [0] ∧
    inDegree g2.dag.edges 0 = 1 ∧
    inDegree g2.dag.edges 1 = 0 ∧
    (1 : Int) ∉ g2.roots := by decide

/-- C2: counterexample to "add_child adds a directed edge from `p` to the new
vertex".  On the one-vertex graph `g1`, `add_child(0, frameFoo)` does create
exactly one vertex holding `frameFoo`, keeps it out of `roots`, leaves `0`'s
membership in `roots` unchanged and returns the new node — but the single
edge it inserts is `1 -> 0` (graph.py:82 calls `dag.add_parent(parent_id)`),
the reverse of the claimed `0 -> 1`. -/
theorem add_child_edge_direction :
    g1.add_child (.ofId 0) frameFoo =
      .ok (g2, { frame := frameFoo, _hatchet_nid := 1 }) ∧
    g2.dag.edges = [(1, 0)] ∧
    ((0, 1) : Int × Int) ∉ g2.dag.edges ∧
    g2.roots = g1.roots := by decide

/-- C3: counterexample to "is_tree is true iff `roots` has exactly one member
and every vertex was discovered exactly once".  On the empty graph `roots`
has zero members, yet `is_tree` returns `True`: graph.py:152 only rules out
`len(roots) > 1`, and the visit-count check passes vacuously because
graph.py:147 never fills the local `visited` dictionary. -/
theorem is_tree_true_on_empty_graph :
    emptyGraph.is_tree = .ok true ∧ emptyGraph.roots.length = 0 := by decide

/-- C4: counterexample to "running normalize twice yields an empty merge map
the second time".  On any graph with a root — here the one-vertex graph `g1`
— the first `normalize` already dies: `find_merges` passes the set of integer
root ids into `index_by("frame", ...)`, which reads `.frame` off an `int` and
raises `AttributeError`, so no run of `normalize` ever completes. -/
theorem normalize_raises_on_rooted_graph :
    g1.normalize =
      .error (.attributeError "int object has no attribute frame") := by decide

/-- C5: `find_merges` on the one-vertex graph `g1` raises `AttributeError`
at graph.py:191 before any candidate group is partitioned, so the
representative choice the claim describes never takes place (and the choice
coded at graph.py:179/183 would use `min(..., key=id)` — raw object identity
— not a reproducible order over vertex ids). -/
theorem find_merges_raises_before_grouping :
    g1.find_merges =
      .error (.attributeError "int object has no attribute frame") := by decide

/-- C6: for every graph and existing vertices `u`, `v` with `u` reachable
from `v`, `add_edge(u, v)` raises `DAGWouldCycle`.  The raise happens inside
rustworkx before the edge is committed and before the `roots` update at
graph.py:105, so the error result carries no mutation: the graph the caller
holds is exactly the one before the call. -/
theorem add_edge_rejects_cycle (g : Graph) (u v : Int)
    (hu : g.dag.hasNode u = true) (hv : g.dag.hasNode v = true)
    (h : ReachN g.dag.edges v u) :
    g.add_edge (.ofId u) (.ofId v) = .error .dagWouldCycle := by
  have hr : reachB g.dag.edges v u = true := reachB_complete h
  simp [Graph.add_edge, NodeRef.resolve, hu, hv, hr]

/-- Witness for C6: in the two-vertex graph `gW` with edge `0 -> 1`, vertex
`1` is reachable from vertex `0`, and `add_edge(1, 0)` is rejected. -/
theorem add_edge_rejects_cycle_witness :
    gW.dag.hasNode 1 = true ∧ gW.dag.hasNode 0 = true ∧
    ReachN gW.dag.edges 0 1 ∧
    gW.add_edge (.ofId 1) (.ofId 0) = .error .dagWouldCycle :=
  ⟨by decide, by decide, ReachN.step (by decide) (ReachN.refl 1),
   add_edge_rejects_cycle gW 1 0 (by decide) (by decide)
     (ReachN.step (by decide) (ReachN.refl 1))⟩

/-- C7: counterexample to "copy returns a graph with the same counts and a
bijective old-to-new map": `copy` never returns.  On the empty graph it
raises `AttributeError` at graph.py:252 (`Graph` has no method
`enumerate_traverse`); on any graph with a root it already raises at
graph.py:251, where `old_to_new[r]` compares a `Node` key against the integer
`r` through `Node.__eq__`. -/
theorem copy_always_raises :
    emptyGraph.copy =
      .error (.attributeError "Graph object has no attribute enumerate_traverse") ∧
    g1.copy =
      .error (.attributeError "int object has no attribute _hatchet_nid") := by
  decide

/-- C8: counterexample to "a caller-supplied visited table afterwards records
the discovery counts".  Draining `traverse("pre", visited={})` on the
one-vertex graph `g1` yields its single vertex and hands the caller's table
back empty — graph.py:147 rebinds the local name instead of mutating the
argument — although the visitor internally counted one discovery of vertex
`0`. -/
theorem traverse_leaves_caller_visited_empty :
    g1.traverse "pre" (some []) =
      .ok ([{ frame := frameMain, _hatchet_nid := 0 }], some []) ∧
    g1.visitorCounts = [(0, 1)] := by decide

/-- C9: for every graph and every order other than `"pre"`/`"post"`,
`traverse` fails with the `ValueError` raised by the visitor constructor
(graph.py:26-27); the failure happens at traversal start, before any vertex
is produced, and the error result carries no vertices. -/
theorem traverse_unknown_order_errors (g : Graph) (order : String)
    (visited : Option (List (Int × Nat)))
    (h1 : order ≠ "pre") (h2 : order ≠ "post") :
    g.traverse order visited =
      .error (.valueError "Unknown traversal order") := by
  simp [Graph.traverse, h1, h2]

/-- Witness for C9: the order `"mid"` is neither `"pre"` nor `"post"` and is
rejected on the empty graph. -/
theorem traverse_unknown_order_errors_witness :
    ("mid" : String) ≠ "pre" ∧ ("mid" : String) ≠ "post" ∧
    emptyGraph.traverse "mid" none =
      .error (.valueError "Unknown traversal order") :=
  ⟨by decide, by decide,
   traverse_unknown_order_errors emptyGraph "mid" none (by decide) (by decide)⟩

/-- C10: Node equality, hashing and ordering depend only on the
graph-assigned id and ignore the Frame: for all nodes `a`, `b` — their frames
unconstrained, so in particular when the frames differ — `a == b` iff the ids
are equal, `hash a` is `a`'s id, and `a < b` iff `a`'s id is smaller. -/
theorem node_identity_semantics (a b : Node) :
    (Node.eqOp a b = true ↔ a._hatchet_nid = b._hatchet_nid) ∧
    Node.hashOp a = a._hatchet_nid ∧
    (Node.ltOp a b = true ↔ a._hatchet_nid < b._hatchet_nid) := by
  refine ⟨?_, rfl, ?_⟩
  · simp [Node.eqOp]
  · simp [Node.ltOp]

end Thicket
